import Mathlib

/-!
Verification of the validation and OAuth credential layer of the tailscale-mcp
server.

The development shallowly embeds the two source modules the claims are about:

* `src/utils.ts` — the input validators (`validateTarget`, `validateStringInput`,
  `validateRoutes`, `isValidCIDR`, `isValidIPAddress`) together with the
  dangerous-character catalogs;
* `src/tailscale/oauth.ts` — the `TailscaleOAuthManager` credential manager
  (constructor/config merging, `getAccessToken`, `refreshToken`,
  `invalidateToken`, `isConfigured`, `fromEnvironment`).

JavaScript strings are modelled as Lean `String` (a wrapper around `List Char`);
exceptions are modelled as `Except String`; the network is modelled as an
explicit oracle argument describing the outcome of the single token-exchange
request a refresh performs.  IP-address parsing in the source is delegated to
the third-party library ipaddr.js, which is not part of the repository: those
predicates are modelled from the specification's words and are marked as such.
-/

namespace TailscaleMcp

/-- Equality on `Except` results is decidable, so concrete runs of the
embedded functions can be checked by evaluation. -/
instance {ε α : Type} [DecidableEq ε] [DecidableEq α] : DecidableEq (Except ε α) :=
  fun x y =>
    match x, y with
    | .ok a, .ok b =>
      match decEq a b with
      | isTrue h => isTrue (h ▸ rfl)
      | isFalse h => isFalse (fun hh => h (Except.ok.inj hh))
    | .error a, .error b =>
      match decEq a b with
      | isTrue h => isTrue (h ▸ rfl)
      | isFalse h => isFalse (fun hh => h (Except.error.inj hh))
    | .ok _, .error _ => isFalse (fun hh => Except.noConfusion hh)
    | .error _, .ok _ => isFalse (fun hh => Except.noConfusion hh)

/-! ## Character catalogs (src/utils.ts, DANGEROUS_CHARS / DANGEROUS_CHARS_BASIC) -/

/-- The full dangerous-character catalog `DANGEROUS_CHARS` from src/utils.ts.
The code points 96, 123, 125, 39 and 34 are the backtick, the two braces,
the single quote and the double quote. -/
def dangerousChars : List Char :=
  [';', '&', '|', Char.ofNat 96, '$', '(', ')', Char.ofNat 123, Char.ofNat 125,
   '[', ']', '<', '>', '\\', Char.ofNat 39, Char.ofNat 34]

/-- The reduced catalog `DANGEROUS_CHARS_BASIC` from src/utils.ts: the full
catalog without the square brackets and the two quote characters. -/
def dangerousCharsBasic : List Char :=
  [';', '&', '|', Char.ofNat 96, '$', '(', ')', Char.ofNat 123, Char.ofNat 125,
   '<', '>', '\\']

/-- Renders a character between single quotes, as the template literal
in the error messages of src/utils.ts does. -/
def quoteChar (c : Char) : String := String.mk [Char.ofNat 39, c, Char.ofNat 39]

/-! ## List-of-characters helpers -/

/-- Splits a character list at every occurrence of `sep`; the JS
`String.prototype.split` / the piece structure used by the parsing model. -/
def splitOnChar (sep : Char) : List Char → List (List Char)
  | [] => [[]]
  | c :: cs =>
    match splitOnChar sep cs with
    | [] => if c = sep then [[], []] else [[c]]
    | g :: gs => if c = sep then [] :: g :: gs else (c :: g) :: gs

/-- Splits a character list at the last occurrence of `sep`, returning the
part before and the part after it. -/
def splitLast (sep : Char) : List Char → Option (List Char × List Char)
  | [] => none
  | c :: cs =>
    match splitLast sep cs with
    | some (l, r) => some (c :: l, r)
    | none => if c = sep then some ([], cs) else none

/-! ## IP-address parsing model

The source delegates IP and CIDR parsing to the third-party library ipaddr.js
(`ipaddr.parse`, `ipaddr.parseCIDR`), which is not part of this repository.
The predicates below are therefore modelled from the specification. -/

/-- A decimal-digit string interpreted as a natural number. -/
def natOfDigits (cs : List Char) : Nat :=
  cs.foldl (fun n c => 10 * n + (c.toNat - 48)) 0

/-- An IPv4 octet: one to three decimal digits with value at most 255. -/
def isOctet (g : List Char) : Bool :=
  !g.isEmpty && decide (g.length ≤ 3) && g.all Char.isDigit &&
    decide (natOfDigits g ≤ 255)

/-- A character that may occur in an IPv4 literal. -/
def isV4Char (c : Char) : Bool := c.isDigit || c == '.'

/-- Modelled from the spec: the IP parsing of the third-party library
ipaddr.js is not in the repository; per §4.2 a syntactically valid IPv4
literal is four dot-separated decimal octets with every octet in range
and no trailing garbage. -/
def isValidIPv4L (cs : List Char) : Bool :=
  cs.all isV4Char &&
    match splitOnChar '.' cs with
    | [a, b, c, d] => isOctet a && isOctet b && isOctet c && isOctet d
    | _ => false

/-- A hexadecimal digit. -/
def isHexChar (c : Char) : Bool :=
  c.isDigit || (decide ('a' ≤ c) && decide (c ≤ 'f')) ||
    (decide ('A' ≤ c) && decide (c ≤ 'F'))

/-- A character that may occur in an IPv6 literal (hex digit, colon, or a dot
inside an embedded IPv4 tail). -/
def isV6Char (c : Char) : Bool := isHexChar c || c == ':' || c == '.'

/-- An IPv6 group: one to four hexadecimal digits. -/
def isHexGroup (g : List Char) : Bool :=
  !g.isEmpty && decide (g.length ≤ 4) && g.all isHexChar

/-- Weight of a colon-separated group list: every hex group counts one,
a trailing embedded IPv4 quad counts two; `none` when some piece is neither. -/
def groupsWeight : List (List Char) → Option Nat
  | [] => some 0
  | [g] => if isHexGroup g then some 1 else if isValidIPv4L g then some 2 else none
  | g :: gs => if isHexGroup g then (groupsWeight gs).map (· + 1) else none

/-- Splits a character list at the first occurrence of two consecutive colons,
returning the parts before and after the pair. -/
def splitFirstPair : List Char → Option (List Char × List Char)
  | ':' :: ':' :: rest => some ([], rest)
  | c :: rest =>
    match splitFirstPair rest with
    | some (l, r) => some (c :: l, r)
    | none => none
  | [] => none

/-- Modelled from the spec: the IP parsing of the third-party library
ipaddr.js is not in the repository; per §4.2 a syntactically valid IPv6
literal has colon-separated groups of up to four hex digits, eight groups
when written in full (an embedded IPv4 tail standing for two), or fewer
with exactly one double-colon compression, and no malformed compression
or trailing garbage. -/
def isValidIPv6L (cs : List Char) : Bool :=
  cs.all isV6Char && cs.contains ':' &&
    match splitFirstPair cs with
    | none =>
      (match groupsWeight (splitOnChar ':' cs) with
       | some w => w == 8
       | none => false)
    | some (l, r) =>
      let lg := if l.isEmpty then [] else splitOnChar ':' l
      let rg := if r.isEmpty then [] else splitOnChar ':' r
      lg.all isHexGroup &&
        match groupsWeight rg with
        | some w => decide (lg.length + w ≤ 7)
        | none => false

/-- Modelled from the spec: `isValidIPAddress` in src/utils.ts returns true
exactly when ipaddr.js parses the string as an IPv4 or IPv6 literal. -/
def isValidIPAddress (s : String) : Bool :=
  isValidIPv6L s.data || isValidIPv4L s.data

/-- Modelled from the spec: the shape check of ipaddr.js `parseCIDR` — the
string must be an IP part, a slash, and a nonempty run of decimal digits
(the regex `(.+)/(\d+)` anchored at both ends). -/
def splitCIDR (cs : List Char) : Option (List Char × List Char) :=
  match splitLast '/' cs with
  | none => none
  | some (ip, pfx) =>
    if !ip.isEmpty && !pfx.isEmpty && pfx.all Char.isDigit then some (ip, pfx)
    else none

/-- Modelled from the spec: `isValidCIDR` in src/utils.ts returns true exactly
when ipaddr.js `parseCIDR` succeeds — the IP part is a valid IPv4 literal with
the mask at most 32, or a valid IPv6 literal with the mask at most 128. -/
def isValidCIDR (s : String) : Bool :=
  match splitCIDR s.data with
  | none => false
  | some (ip, pfx) =>
    (isValidIPv6L ip && decide (natOfDigits pfx ≤ 128)) ||
      (isValidIPv4L ip && decide (natOfDigits pfx ≤ 32))

example : isValidIPAddress "192.168.1.1" = true := by decide
example : isValidIPAddress "256.0.0.1" = false := by decide
example : isValidIPAddress "999.999.999.999" = false := by decide
example : isValidIPAddress "192.168.1.1.1" = false := by decide
example : isValidIPAddress "2001:db8::1" = true := by decide
example : isValidIPAddress "::1" = true := by decide
example : isValidIPAddress "::" = true := by decide
example : isValidIPAddress "fe80::1" = true := by decide
example : isValidIPAddress "2001:0db8:85a3:0000:0000:8a2e:0370:7334" = true := by decide
example : isValidIPAddress "::ffff:192.168.1.1" = true := by decide
example : isValidIPAddress "2001:db8:::1" = false := by decide
example : isValidIPAddress "gggg::1" = false := by decide
example : isValidIPAddress "example.com" = false := by decide
example : isValidIPAddress "" = false := by decide
example : isValidCIDR "10.0.0.0/8" = true := by decide
example : isValidCIDR "0.0.0.0/0" = true := by decide
example : isValidCIDR "10.0.0.0/33" = false := by decide
example : isValidCIDR "999.999.999.999/32" = false := by decide
example : isValidCIDR "10.0.0.0.0/8" = false := by decide
example : isValidCIDR "10.0.0.0/" = false := by decide
example : isValidCIDR "/8" = false := by decide
example : isValidCIDR "2001:db8::/32" = true := by decide
example : isValidCIDR "::/0" = true := by decide
example : isValidCIDR "::1/128" = true := by decide
example : isValidCIDR "2001:db8::/129" = false := by decide
example : isValidCIDR "2001:db8:::1/64" = false := by decide
example : isValidCIDR "example.com/24" = false := by decide
example : isValidCIDR "192.168.1.1" = false := by decide
example : isValidCIDR "" = false := by decide

/-! ## Validators (src/utils.ts) -/

/-- The check `target.includes("..")`: two consecutive dots occur. -/
def hasDoubleDot : List Char → Bool
  | '.' :: '.' :: _ => true
  | _ :: rest => hasDoubleDot rest
  | [] => false

/-- The check `target.startsWith("/")`. -/
def startsWithSlash : List Char → Bool
  | '/' :: _ => true
  | _ => false

/-- The regex `\d+(\.\d+)*` anchored at both ends: nonempty, and every
dot-separated piece is a nonempty run of decimal digits. -/
def looksLikeIPv4 (cs : List Char) : Bool :=
  !cs.isEmpty && (splitOnChar '.' cs).all (fun g => !g.isEmpty && g.all Char.isDigit)

/-- A character allowed inside a hostname label: `[a-zA-Z0-9-]`. -/
def isHostChar (c : Char) : Bool := c.isAlphanum || c == '-'

/-- One label of `VALID_HOSTNAME_PATTERN`: `[a-zA-Z0-9]([a-zA-Z0-9-]*[a-zA-Z0-9])?`
— nonempty, hyphens and alphanumerics only, first and last character
alphanumeric. -/
def isLabel : List Char → Bool
  | [] => false
  | c :: rest =>
    c.isAlphanum && (c :: rest).all isHostChar &&
      match (c :: rest).getLast? with
      | some l => l.isAlphanum
      | none => false

/-- `VALID_HOSTNAME_PATTERN` from src/utils.ts: dot-separated labels. -/
def matchesHostname (cs : List Char) : Bool := (splitOnChar '.' cs).all isLabel

/-- `validateTarget` from src/utils.ts.  The thrown `Error` is modelled as
`Except.error` carrying the message. -/
def validateTarget (target : String) : Except String Unit :=
  let cs := target.data
  if cs.isEmpty then .error "Invalid target specified"
  else
    match dangerousChars.find? (fun c => cs.contains c) with
    | some c => .error ("Invalid character " ++ quoteChar c ++ " in target")
    | none =>
      if hasDoubleDot cs || startsWithSlash cs || cs.contains '~' then
        .error "Target contains invalid characters or format"
      else if 253 < cs.length then .error "Target too long"
      else if isValidIPAddress target then .ok ()
      else if looksLikeIPv4 cs then .error "Invalid IPv4 address format"
      else if cs.contains ':' then .error "Invalid IPv6 address format"
      else if !matchesHostname cs then
        .error "Target must be a valid IP address or hostname"
      else .ok ()

/-- `validateStringInput` from src/utils.ts (the input is typed as a string,
so the `typeof` guard cannot fire and is not modelled). -/
def validateStringInput (input : String) (fieldName : String) : Except String Unit :=
  match dangerousCharsBasic.find? (fun c => input.data.contains c) with
  | some c => .error ("Invalid character " ++ quoteChar c ++ " in " ++ fieldName)
  | none =>
    if 1000 < input.data.length then .error (fieldName ++ " too long")
    else .ok ()

/-- An untyped JavaScript value as far as `validateRoutes` can observe it:
a string, an array, or anything else. -/
inductive JSValue where
  | str (s : String)
  | arr (elems : List JSValue)
  | other (tag : String)

/-- The per-element loop of `validateRoutes`: the `typeof` check on each
element comes before its CIDR check, and the loop stops at the first
failure. -/
def validateRoutesList : List JSValue → Except String Unit
  | [] => .ok ()
  | .str s :: rest =>
    if isValidCIDR s then validateRoutesList rest
    else .error ("Invalid CIDR format: " ++ s)
  | _ :: _ => .error "Each route must be a string"

/-- `validateRoutes` from src/utils.ts. -/
def validateRoutes : JSValue → Except String Unit
  | .arr xs => validateRoutesList xs
  | _ => .error "Routes must be an array"

example : validateTarget "example.com" = .ok () := by decide
example : validateTarget "my-server" = .ok () := by decide
example : validateTarget "server123" = .ok () := by decide
example : validateTarget "192.168.1.1" = .ok () := by decide
example : validateTarget "2001:db8::1" = .ok () := by decide
example : validateTarget "::1" = .ok () := by decide
example : validateTarget "999.999.999.999" = .error "Invalid IPv4 address format" := by decide
example : validateTarget "host;rm -rf /" =
    .error ("Invalid character " ++ quoteChar ';' ++ " in target") := by decide
example : validateTarget "../etc/passwd" =
    .error "Target contains invalid characters or format" := by decide
example : validateTarget "/etc/passwd" =
    .error "Target contains invalid characters or format" := by decide
example : validateTarget "~/.ssh/id_rsa" =
    .error "Target contains invalid characters or format" := by decide
example : validateStringInput "hello" "field" = .ok () := by decide
example : validateRoutes (.arr [.str "10.0.0.0/8", .str "2001:db8::/32"]) = .ok () := by
  decide
example : validateRoutes (.arr [.str "999.999.999.999/32"]) =
    .error "Invalid CIDR format: 999.999.999.999/32" := by decide
example : validateRoutes (.str "10.0.0.0/8") = .error "Routes must be an array" := by
  decide
example : validateRoutes (.arr [.other "number"]) =
    .error "Each route must be a string" := by decide

/-! ## Credential manager (src/tailscale/oauth.ts) -/

/-- The mutable token state of a `TailscaleOAuthManager`: the fields
`accessToken` and `tokenExpiry` (the expiry as a millisecond epoch
timestamp, the `Date` it wraps). -/
structure OAuthState where
  accessToken : Option String
  tokenExpiry : Option Int
deriving DecidableEq, Repr

/-- The state established by the constructor: both fields null. -/
def initialOAuthState : OAuthState := ⟨none, none⟩

/-- The `expiryBuffer` field: 60 seconds. -/
def expiryBuffer : Int := 60

/-- `isTokenValid`: the token and expiry are set, the token is truthy
(a nonempty string), and more than the 60-second buffer remains before
expiry. -/
def isTokenValid (st : OAuthState) (now : Int) : Bool :=
  match st.accessToken, st.tokenExpiry with
  | some t, some e => !(t == "") && decide (e - now > expiryBuffer * 1000)
  | _, _ => false

/-- The outcome of the single token-exchange POST a refresh performs:
success carries the response fields `access_token` and `expires_in`
(seconds); an axios failure carries the optional upstream response fields
`error_description` and `error` and the transport-level `error.message`;
any other thrown value is re-raised as is. -/
inductive RefreshOutcome where
  | success (accessToken : String) (expiresIn : Int)
  | axiosFailure (errorDescription : Option String) (errorField : Option String)
      (message : String)
  | otherFailure (message : String)

/-- JavaScript truthiness of an optional string: present and nonempty. -/
def truthy : Option String → Bool
  | some s => !(s == "")
  | none => false

/-- The fallback chain
`errorData?.error_description || errorData?.error || error.message || "Failed to obtain OAuth token"`. -/
def refreshErrorMessage (desc errField : Option String) (msg : String) : String :=
  if truthy desc then desc.getD ""
  else if truthy errField then errField.getD ""
  else if msg ≠ "" then msg
  else "Failed to obtain OAuth token"

/-- `refreshToken`: on success stores the token and `now + expires_in * 1000`;
on any failure clears both fields, wrapping an axios failure in the
`OAuth authentication failed:` message and re-raising anything else. -/
def refreshToken (_st : OAuthState) (now : Int) (net : RefreshOutcome) :
    OAuthState × Except String String :=
  match net with
  | .success tok expiresIn => (⟨some tok, some (now + expiresIn * 1000)⟩, .ok tok)
  | .axiosFailure d e m =>
    (⟨none, none⟩, .error ("OAuth authentication failed: " ++ refreshErrorMessage d e m))
  | .otherFailure m => (⟨none, none⟩, .error m)

/-- `getAccessToken`: serve the cached token when `isTokenValid` holds
(throwing the internal `Access token is null` error when the cached token is
falsy), otherwise refresh.  The boolean records whether the token-exchange
network request was performed. -/
def getAccessToken (st : OAuthState) (now : Int) (net : RefreshOutcome) :
    OAuthState × Except String String × Bool :=
  if isTokenValid st now then
    match st.accessToken with
    | some t =>
      if t == "" then (st, .error "Access token is null", false)
      else (st, .ok t, false)
    | none => (st, .error "Access token is null", false)
  else
    let r := refreshToken st now net
    (r.1, r.2, true)

/-- `invalidateToken`: clears both fields. -/
def invalidateToken (_st : OAuthState) : OAuthState := ⟨none, none⟩

/-- The argument object of the constructor.  JavaScript distinguishes an
absent `baseUrl` key from a key present with value `undefined`:
`none` models the absent key, `some none` the key set to `undefined`,
`some (some u)` the key set to the string `u`. -/
structure OAuthConfigArg where
  clientId : String
  clientSecret : String
  baseUrl : Option (Option String)

/-- The merged `this.config` of a constructed manager; `baseUrl = none`
models the field holding `undefined`. -/
structure ManagerConfig where
  clientId : String
  clientSecret : String
  baseUrl : Option String
deriving DecidableEq, Repr

/-- The spread `{ baseUrl: "https://api.tailscale.com", ...config }`:
the default survives only when the `baseUrl` key is absent from `config`;
a key present with value `undefined` overrides it. -/
def mergeConfig (cfg : OAuthConfigArg) : ManagerConfig :=
  ⟨cfg.clientId, cfg.clientSecret,
    match cfg.baseUrl with
    | none => some "https://api.tailscale.com"
    | some v => v⟩

/-- The constructor of `TailscaleOAuthManager`: merges the config and throws
when the client id or secret is falsy (empty). -/
def mkManager (cfg : OAuthConfigArg) : Except String ManagerConfig :=
  let merged := mergeConfig cfg
  if merged.clientId == "" || merged.clientSecret == "" then
    .error "OAuth client ID and secret are required for OAuth authentication"
  else .ok merged

/-- A JavaScript template literal stringifies `undefined` as the word
`undefined`. -/
def jsTemplate : Option String → String
  | some s => s
  | none => "undefined"

/-- The URL the token-exchange request is sent to. -/
def tokenUrl (mc : ManagerConfig) : String :=
  jsTemplate mc.baseUrl ++ "/api/v2/oauth/token"

/-- The three environment variables the static helpers read; `none` models
an unset variable. -/
structure Env where
  oauthClientId : Option String
  oauthClientSecret : Option String
  apiBaseUrl : Option String

/-- `TailscaleOAuthManager.isConfigured`: both variables set and nonempty. -/
def isConfigured (env : Env) : Bool :=
  truthy env.oauthClientId && truthy env.oauthClientSecret

/-- `TailscaleOAuthManager.fromEnvironment`: returns null unless both
credential variables are truthy; otherwise constructs a manager whose config
object carries the `baseUrl` key with the (possibly undefined) value of
`TAILSCALE_API_BASE_URL`. -/
def fromEnvironment (env : Env) : Option (Except String ManagerConfig) :=
  match env.oauthClientId, env.oauthClientSecret with
  | some cid, some cs =>
    if cid == "" || cs == "" then none
    else some (mkManager ⟨cid, cs, some env.apiBaseUrl⟩)
  | _, _ => none

example : mkManager ⟨"", "s", none⟩ =
    .error "OAuth client ID and secret are required for OAuth authentication" := by
  decide
example : mkManager ⟨"id", "s", none⟩ =
    .ok ⟨"id", "s", some "https://api.tailscale.com"⟩ := by decide
example : tokenUrl ⟨"id", "s", some "https://custom.tailscale.com"⟩ =
    "https://custom.tailscale.com/api/v2/oauth/token" := by decide
example : fromEnvironment ⟨none, none, none⟩ = none := by decide
example : fromEnvironment ⟨some "id", none, none⟩ = none := by decide
example : isConfigured ⟨some "id", some "s", none⟩ = true := by decide

/-! ## Claims about the credential manager -/

/-- The invariant of claim C9: `accessToken` and `tokenExpiry` are both null
or both non-null. -/
def tokenInv (st : OAuthState) : Prop :=
  st.accessToken.isSome = st.tokenExpiry.isSome

/-- C3: the claim says every manager constructed without an explicit baseUrl —
including one built by `fromEnvironment()` with `TAILSCALE_API_BASE_URL`
unset — sends the token exchange to the default
`https://api.tailscale.com/api/v2/oauth/token`.  The code disagrees on the
`fromEnvironment` path: the config object it builds carries the `baseUrl`
key with value `undefined`, the object spread in the constructor lets that
key override the default, and the template literal then renders the URL as
`undefined/api/v2/oauth/token`.  Direct construction without the key does
keep the default, as the last two conjuncts show. -/
theorem fromEnvironment_default_baseUrl_bug :
    fromEnvironment ⟨some "id", some "secret", none⟩ =
      some (.ok ⟨"id", "secret", none⟩) ∧
    tokenUrl ⟨"id", "secret", none⟩ = "undefined/api/v2/oauth/token" ∧
    mkManager ⟨"id", "secret", none⟩ =
      .ok ⟨"id", "secret", some "https://api.tailscale.com"⟩ ∧
    tokenUrl ⟨"id", "secret", some "https://api.tailscale.com"⟩ =
      "https://api.tailscale.com/api/v2/oauth/token" :=
  ⟨rfl, rfl, rfl, rfl⟩

/-- C1 (counterexample): a state whose `accessToken` field is non-null (the
empty string) and whose expiry is far beyond the 60-second buffer still
triggers a token-exchange network request, because the JavaScript truthiness
check `!this.accessToken` treats the empty string like null; the claim as
stated says such a state is served from the cache with no network call. -/
theorem getAccessToken_empty_token_refreshes :
    (OAuthState.mk (some "") (some 1000000)).accessToken.isSome = true ∧
    ((0 : Int) + expiryBuffer * 1000 < 1000000) ∧
    getAccessToken ⟨some "", some 1000000⟩ 0 (.success "fresh" 3600) =
      (⟨some "fresh", some 3600000⟩, .ok "fresh", true) := by
  refine ⟨rfl, by decide, by decide⟩

/-- C1 (amended): for every state holding a cached non-empty token whose
expiry satisfies `now + 60 s < expiresAt`, `getAccessToken` returns the
cached value, leaves the state unchanged and performs no network call; for
every state where that fails (no cached token, an empty cached token, no
expiry, or an expiry within the 60-second buffer) it performs the
token-exchange refresh instead. -/
theorem getAccessToken_freshness :
    ∀ (st : OAuthState) (now : Int) (net : RefreshOutcome),
      (∀ t e, st.accessToken = some t → t ≠ "" → st.tokenExpiry = some e →
        now + expiryBuffer * 1000 < e →
        getAccessToken st now net = (st, .ok t, false)) ∧
      ((st.accessToken = none ∨ st.accessToken = some "" ∨ st.tokenExpiry = none ∨
        (∃ e, st.tokenExpiry = some e ∧ e ≤ now + expiryBuffer * 1000)) →
        getAccessToken st now net =
          ((refreshToken st now net).1, (refreshToken st now net).2, true)) := by
  intro st now net
  constructor
  · intro t e hat hne hexp hlt
    have hbeq : (t == "") = false := by simpa using hne
    have hlt60 : now + 60 * 1000 < e := hlt
    have hvalid : isTokenValid st now = true := by
      have hgt : (decide (e - now > expiryBuffer * 1000)) = true := by
        rw [decide_eq_true_eq]
        show e - now > 60 * 1000
        omega
      simp [isTokenValid, hat, hexp, hbeq, hgt]
    simp [getAccessToken, hvalid, hat, hbeq]
  · intro hcase
    have hvalid : isTokenValid st now = false := by
      obtain ⟨a, x⟩ := st
      rcases hcase with h | h | h | ⟨e, he, hle⟩
      · simp only at h
        subst h
        simp [isTokenValid]
      · simp only at h
        subst h
        cases x <;> simp [isTokenValid]
      · simp only at h
        subst h
        cases a <;> simp [isTokenValid]
      · simp only at he
        subst he
        cases a with
        | none => simp [isTokenValid]
        | some t =>
          have hle60 : e ≤ now + 60 * 1000 := hle
          have : ¬(e - now > expiryBuffer * 1000) := by
            show ¬(e - now > 60 * 1000)
            omega
          simp [isTokenValid, this]
    simp [getAccessToken, hvalid]

/-- C1 (witness for the amended theorem): a concrete fresh state is served
from the cache with no network call. -/
theorem getAccessToken_freshness_witness :
    getAccessToken ⟨some "tok", some 1000000⟩ 0 (.success "x" 3600) =
      (⟨some "tok", some 1000000⟩, .ok "tok", false) :=
  (getAccessToken_freshness ⟨some "tok", some 1000000⟩ 0
      (.success "x" 3600)).1 "tok" 1000000 rfl (by decide) rfl (by decide)

/-- C2: every failing token-exchange request clears the cached token and
expiry (after which no `getAccessToken` can serve a cached value — it always
performs a refresh), and raises the `OAuth authentication failed:` error
whose payload is the upstream `error_description` when the response provides
a nonempty one, and the transport-level failure reason when the response
provides no upstream error information. -/
theorem refreshToken_failure_fail_closed :
    ∀ (st : OAuthState) (now : Int) (d e : Option String) (m : String),
      (refreshToken st now (.axiosFailure d e m)).1 = ⟨none, none⟩ ∧
      (refreshToken st now (.axiosFailure d e m)).2 =
        .error ("OAuth authentication failed: " ++ refreshErrorMessage d e m) ∧
      (∀ s, d = some s → s ≠ "" → refreshErrorMessage d e m = s) ∧
      (truthy d = false → truthy e = false → m ≠ "" → refreshErrorMessage d e m = m) ∧
      (∀ now2 net2, (getAccessToken ⟨none, none⟩ now2 net2).2.2 = true) := by
  intro st now d e m
  refine ⟨rfl, rfl, ?_, ?_, ?_⟩
  · intro s hd hs
    subst hd
    simp [refreshErrorMessage, truthy, hs]
  · intro hd he hm
    simp [refreshErrorMessage, hd, he, hm]
  · intro now2 net2
    rfl

/-- C2 (witness): a concrete failure with an upstream description clears the
state and surfaces the description. -/
theorem refreshToken_failure_fail_closed_witness :
    refreshErrorMessage (some "invalid client") (some "err") "boom" =
      "invalid client" :=
  (refreshToken_failure_fail_closed ⟨none, none⟩ 0 (some "invalid client")
      (some "err") "boom").2.2.1 "invalid client" rfl (by decide)

/-- C8: constructing a manager with an empty client id or secret fails with
the authentication error; `fromEnvironment` and `isConfigured` report
not-configured (null / false) whenever either credential variable is absent,
and report configured only when both are present. -/
theorem oauth_configuration_guards :
    (∀ cfg : OAuthConfigArg, cfg.clientId = "" ∨ cfg.clientSecret = "" →
      mkManager cfg =
        .error "OAuth client ID and secret are required for OAuth authentication") ∧
    (∀ env : Env, env.oauthClientId = none ∨ env.oauthClientSecret = none →
      fromEnvironment env = none ∧ isConfigured env = false) ∧
    (∀ env : Env, ((∃ r, fromEnvironment env = some r) ∨ isConfigured env = true) →
      env.oauthClientId ≠ none ∧ env.oauthClientSecret ≠ none) := by
  refine ⟨?_, ?_, ?_⟩
  · intro cfg h
    rcases h with h | h <;> simp [mkManager, mergeConfig, h]
  · intro env h
    obtain ⟨a, b, u⟩ := env
    rcases h with h | h
    · simp only at h
      subst h
      exact ⟨rfl, rfl⟩
    · simp only at h
      subst h
      constructor
      · cases a <;> rfl
      · simp [isConfigured, truthy]
  · intro env h
    obtain ⟨a, b, u⟩ := env
    rcases h with ⟨r, hr⟩ | hc
    · cases a with
      | none => exact absurd hr (by simp [fromEnvironment])
      | some ca =>
        cases b with
        | none => exact absurd hr (by simp [fromEnvironment])
        | some cb => exact ⟨by simp, by simp⟩
    · simp only [isConfigured, Bool.and_eq_true] at hc
      cases a with
      | none => simp [truthy] at hc
      | some ca =>
        cases b with
        | none => simp [truthy] at hc
        | some cb => exact ⟨by simp, by simp⟩

/-- C8 (witness): the constructor rejects an empty client id. -/
theorem oauth_configuration_guards_witness :
    mkManager ⟨"", "s", none⟩ =
      .error "OAuth client ID and secret are required for OAuth authentication" :=
  oauth_configuration_guards.1 ⟨"", "s", none⟩ (Or.inl rfl)

/-- C9: the constructor establishes that `accessToken` and `tokenExpiry` are
both null or both non-null, and `getAccessToken`, `refreshToken` (on success
and failure) and `invalidateToken` each preserve it; moreover whenever
`isTokenValid` returned true, `getAccessToken` returns the cached non-empty
token, so the internal `Access token is null` error branch is unreachable. -/
theorem token_fields_invariant :
    tokenInv initialOAuthState ∧
    (∀ st now net, tokenInv st → tokenInv (getAccessToken st now net).1) ∧
    (∀ st now net, tokenInv (refreshToken st now net).1) ∧
    (∀ st, tokenInv (invalidateToken st)) ∧
    (∀ st now net, isTokenValid st now = true →
      ∃ t, st.accessToken = some t ∧ t ≠ "" ∧
        getAccessToken st now net = (st, .ok t, false)) := by
  refine ⟨rfl, ?_, ?_, ?_, ?_⟩
  · intro st now net hinv
    obtain ⟨a, x⟩ := st
    by_cases hv : isTokenValid ⟨a, x⟩ now
    · cases a with
      | none => simpa [getAccessToken, hv] using hinv
      | some t =>
        by_cases ht : (t == "")
        · simpa [getAccessToken, hv, ht] using hinv
        · simpa [getAccessToken, hv, ht] using hinv
    · rw [Bool.not_eq_true] at hv
      cases net <;> simp [getAccessToken, hv, refreshToken, tokenInv]
  · intro st now net
    cases net <;> simp [refreshToken, tokenInv]
  · intro st
    rfl
  · intro st now net hv
    obtain ⟨a, x⟩ := st
    cases a with
    | none => simp [isTokenValid] at hv
    | some t =>
      cases x with
      | none => simp [isTokenValid] at hv
      | some e =>
        have hparts := hv
        simp only [isTokenValid, Bool.and_eq_true, bne_iff_ne, ne_eq,
          decide_eq_true_eq] at hparts
        have hbeq : (t == "") = false := by simpa using hparts.1
        exact ⟨t, rfl, by simpa using hparts.1, by simp [getAccessToken, hv, hbeq]⟩

/-- C9 (witness): a concrete valid state is served from the cache. -/
theorem token_fields_invariant_witness :
    ∃ t, (OAuthState.mk (some "tok") (some 1000000)).accessToken = some t ∧
      t ≠ "" ∧
      getAccessToken ⟨some "tok", some 1000000⟩ 0 (.success "x" 3600) =
        (⟨some "tok", some 1000000⟩, .ok t, false) :=
  token_fields_invariant.2.2.2.2 ⟨some "tok", some 1000000⟩ 0 (.success "x" 3600)
    (by decide)

/-! ## Claims about the validators -/

/-- C10: the empty string passes the generic string guard — it contains no
dangerous character and its length 0 does not exceed 1000 — but the target
guard always rejects it. -/
theorem empty_string_guards :
    ∀ fieldName : String,
      validateStringInput "" fieldName = .ok () ∧
      validateTarget "" = .error "Invalid target specified" := by
  intro fieldName
  exact ⟨rfl, rfl⟩

/-- C4 (counterexample): the square bracket is in the full dangerous-character
catalog and `validateTarget` rejects it, but it is absent from the basic
catalog, so `validateStringInput` accepts a string containing it — the claim
as stated says both validators fail on every character of the full set. -/
theorem validateStringInput_accepts_bracket :
    ('[' ∈ dangerousChars ∧ "x[y".data.contains '[' = true) ∧
    validateStringInput "x[y" "field" = .ok () ∧
    validateTarget "x[y" =
      .error ("Invalid character " ++ quoteChar '[' ++ " in target") := by
  refine ⟨by decide, by decide, by decide⟩

/-- C4 (amended): for every string containing a character of the full
dangerous set, `validateTarget` fails with a message naming such a character;
for every string containing a character of the basic dangerous set (the full
set without the square brackets and the quote characters),
`validateStringInput` fails with a message naming such a character. -/
theorem dangerous_chars_rejected :
    ∀ (s fieldName : String),
      ((∃ c ∈ dangerousChars, s.data.contains c = true) →
        ∃ c, c ∈ dangerousChars ∧ s.data.contains c = true ∧
          validateTarget s =
            .error ("Invalid character " ++ quoteChar c ++ " in target")) ∧
      ((∃ c ∈ dangerousCharsBasic, s.data.contains c = true) →
        ∃ c, c ∈ dangerousCharsBasic ∧ s.data.contains c = true ∧
          validateStringInput s fieldName =
            .error ("Invalid character " ++ quoteChar c ++ " in " ++ fieldName)) := by
  intro s fieldName
  constructor
  · rintro ⟨c, hc, hcont⟩
    have hsome : (dangerousChars.find? (fun c => s.data.contains c)).isSome := by
      rw [List.find?_isSome]
      exact ⟨c, hc, hcont⟩
    obtain ⟨c0, hc0⟩ := Option.isSome_iff_exists.mp hsome
    have hp : s.data.contains c0 = true := List.find?_some hc0
    have hm : c0 ∈ dangerousChars := List.mem_of_find?_eq_some hc0
    have hne : s.data ≠ [] := by
      intro h
      rw [h] at hcont
      simp at hcont
    have hemp : s.data.isEmpty = false := by
      cases h : s.data with
      | nil => exact absurd h hne
      | cons a l => rfl
    have hc0n : List.find? (fun c => decide (c ∈ s.data)) dangerousChars = some c0 := by
      simpa using hc0
    refine ⟨c0, hm, hp, ?_⟩
    simp [validateTarget, hemp, hc0n]
  · rintro ⟨c, hc, hcont⟩
    have hsome : (dangerousCharsBasic.find? (fun c => s.data.contains c)).isSome := by
      rw [List.find?_isSome]
      exact ⟨c, hc, hcont⟩
    obtain ⟨c0, hc0⟩ := Option.isSome_iff_exists.mp hsome
    have hp : s.data.contains c0 = true := List.find?_some hc0
    have hm : c0 ∈ dangerousCharsBasic := List.mem_of_find?_eq_some hc0
    have hc0n : List.find? (fun c => decide (c ∈ s.data)) dangerousCharsBasic =
        some c0 := by
      simpa using hc0
    refine ⟨c0, hm, hp, ?_⟩
    simp [validateStringInput, hc0n]

/-- C4 (witness): a string containing a semicolon is rejected by both guards
with a message naming a dangerous character. -/
theorem dangerous_chars_rejected_witness :
    ∃ c, c ∈ dangerousChars ∧ "host;rm".data.contains c = true ∧
      validateTarget "host;rm" =
        .error ("Invalid character " ++ quoteChar c ++ " in target") :=
  (dangerous_chars_rejected "host;rm" "field").1 ⟨';', by decide, by decide⟩

lemma splitOnChar_ne_nil (sep : Char) : ∀ cs : List Char, splitOnChar sep cs ≠ [] := by
  intro cs
  cases cs with
  | nil => simp [splitOnChar]
  | cons a l =>
    cases h : splitOnChar sep l with
    | nil => by_cases ha : a = sep <;> simp [splitOnChar, h, ha]
    | cons g gs => by_cases ha : a = sep <;> simp [splitOnChar, h, ha]

lemma mem_splitOnChar {sep : Char} :
    ∀ {cs g : List Char}, g ∈ splitOnChar sep cs →
      ∀ {c : Char}, c ∈ g → c ∈ cs ∧ c ≠ sep := by
  intro cs
  induction cs with
  | nil =>
    intro g hg c hc
    simp [splitOnChar] at hg
    subst hg
    exact absurd hc (List.not_mem_nil c)
  | cons a l ih =>
    intro g hg c hc
    cases h : splitOnChar sep l with
    | nil => exact absurd h (splitOnChar_ne_nil sep l)
    | cons g0 gs0 =>
      by_cases ha : a = sep
      · simp only [splitOnChar, h, if_pos ha] at hg
        rcases List.mem_cons.mp hg with rfl | hg2
        · exact absurd hc (List.not_mem_nil c)
        · have hgl : g ∈ splitOnChar sep l := by
            rw [h]
            exact hg2
          have hr := ih hgl hc
          exact ⟨List.mem_cons_of_mem a hr.1, hr.2⟩
      · simp only [splitOnChar, h, if_neg ha] at hg
        rcases List.mem_cons.mp hg with rfl | hg2
        · rcases List.mem_cons.mp hc with rfl | hc2
          · exact ⟨List.mem_cons_self c l, ha⟩
          · have hgl : g0 ∈ splitOnChar sep l := by
              rw [h]
              exact List.mem_cons_self g0 gs0
            have hr := ih hgl hc2
            exact ⟨List.mem_cons_of_mem a hr.1, hr.2⟩
        · have hgl : g ∈ splitOnChar sep l := by
            rw [h]
            exact List.mem_cons_of_mem g0 hg2
          have hr := ih hgl hc
          exact ⟨List.mem_cons_of_mem a hr.1, hr.2⟩

/-- C5: every target string that consists only of digits and dots, or that
contains a colon, and that fails IP parsing, is rejected by
`validateTarget`; such a string is never accepted through the hostname
branch (a digits-and-dots string either matches the digits-and-dots regex
and is rejected as a malformed IPv4 address, or has an empty dot-separated
piece and then fails the hostname label grammar as well). -/
theorem malformed_ip_never_hostname :
    ∀ s : String, isValidIPAddress s = false →
      (s.data.all (fun c => c.isDigit || c == '.') = true ∨ ':' ∈ s.data) →
      ∃ msg, validateTarget s = .error msg := by
  intro s hip hshape
  by_cases hemp : s.data.isEmpty
  · exact ⟨"Invalid target specified", by simp [validateTarget, hemp]⟩
  · cases hfind : List.find? (fun c => decide (c ∈ s.data)) dangerousChars with
    | some c =>
      exact ⟨"Invalid character " ++ quoteChar c ++ " in target",
        by simp [validateTarget, hemp, hfind]⟩
    | none =>
      by_cases hfmt : ((hasDoubleDot s.data = true ∨ startsWithSlash s.data = true) ∨
          '~' ∈ s.data)
      · exact ⟨"Target contains invalid characters or format",
          by simp [validateTarget, hemp, hfind, hfmt]⟩
      · by_cases hlen : 253 < s.length
        · exact ⟨"Target too long", by simp [validateTarget, hemp, hfind, hfmt, hlen]⟩
        · by_cases hlook : looksLikeIPv4 s.data
          · exact ⟨"Invalid IPv4 address format",
              by simp [validateTarget, hemp, hfind, hfmt, hlen, hip, hlook]⟩
          · by_cases hcol : ':' ∈ s.data
            · exact ⟨"Invalid IPv6 address format",
                by simp [validateTarget, hemp, hfind, hfmt, hlen, hip, hlook, hcol]⟩
            · -- the string is all digits and dots but not of the shape
              -- digits(.digits)*: some dot-separated piece is empty, and an
              -- empty piece is no valid hostname label either
              have hall : s.data.all (fun c => c.isDigit || c == '.') = true := by
                rcases hshape with h | h
                · exact h
                · exact absurd h hcol
              have hnonempty : s.data.isEmpty = false := by
                cases h : s.data.isEmpty with
                | false => rfl
                | true => exact absurd h hemp
              have hpall : (splitOnChar '.' s.data).all
                  (fun g => !g.isEmpty && g.all Char.isDigit) = false := by
                cases hp : (splitOnChar '.' s.data).all
                    (fun g => !g.isEmpty && g.all Char.isDigit) with
                | false => rfl
                | true =>
                  exfalso
                  apply hlook
                  simp only [looksLikeIPv4, hnonempty, hp]
                  rfl
              obtain ⟨g, hgmem, hgq⟩ : ∃ g ∈ splitOnChar '.' s.data,
                  ¬((!g.isEmpty && g.all Char.isDigit) = true) := by
                by_contra hno
                push_neg at hno
                have hta : (splitOnChar '.' s.data).all
                    (fun g => !g.isEmpty && g.all Char.isDigit) = true :=
                  List.all_eq_true.mpr hno
                rw [hta] at hpall
                cases hpall
              have hgdig : g.all Char.isDigit = true := by
                rw [List.all_eq_true]
                intro c hcm
                obtain ⟨hcs, hcne⟩ := mem_splitOnChar hgmem hcm
                have hv4 : (c.isDigit || (c == '.')) = true :=
                  List.all_eq_true.mp hall c hcs
                have hv4' : c.isDigit = true ∨ c = '.' := by simpa using hv4
                rcases hv4' with h | h
                · exact h
                · exact absurd h hcne
              have hgnil : g = [] := by
                cases g with
                | nil => rfl
                | cons a t =>
                  exfalso
                  apply hgq
                  rw [hgdig]
                  rfl
              subst hgnil
              have hhost : matchesHostname s.data = false := by
                cases hm : matchesHostname s.data with
                | false => rfl
                | true =>
                  exfalso
                  simp only [matchesHostname] at hm
                  have hL := List.all_eq_true.mp hm [] hgmem
                  simp [isLabel] at hL
              exact ⟨"Target must be a valid IP address or hostname",
                by simp [validateTarget, hemp, hfind, hfmt, hlen, hip, hlook, hcol,
                  hhost]⟩

/-- C5 (witness): the digits-and-dots string with out-of-range octets is
rejected. -/
theorem malformed_ip_never_hostname_witness :
    ∃ msg, validateTarget "999.999.999.999" = .error msg :=
  malformed_ip_never_hostname "999.999.999.999" (by decide) (Or.inl (by decide))

/-- C7: `validateRoutes` rejects every non-array with the `must be an array`
message; an array whose elements are valid-CIDR strings up to some non-string
element is rejected with the `must be a string` message no matter what
follows that element; and an array of strings passes exactly when every
element passes `isValidCIDR`, the failure message otherwise naming an
offending route. -/
theorem validateRoutes_spec :
    (∀ v : JSValue, (∀ xs, v ≠ JSValue.arr xs) →
      validateRoutes v = .error "Routes must be an array") ∧
    (∀ (pre : List JSValue) (v : JSValue) (post : List JSValue),
      (∀ x ∈ pre, ∃ s, x = JSValue.str s ∧ isValidCIDR s = true) →
      (∀ s, v ≠ JSValue.str s) →
      validateRoutes (JSValue.arr (pre ++ v :: post)) =
        .error "Each route must be a string") ∧
    (∀ ss : List String,
      (validateRoutes (JSValue.arr (ss.map JSValue.str)) = .ok () ↔
        ∀ s ∈ ss, isValidCIDR s = true) ∧
      ((∃ s ∈ ss, isValidCIDR s = false) →
        ∃ s ∈ ss, isValidCIDR s = false ∧
          validateRoutes (JSValue.arr (ss.map JSValue.str)) =
            .error ("Invalid CIDR format: " ++ s))) := by
  refine ⟨?_, ?_, ?_⟩
  · intro v hv
    cases v with
    | str s => rfl
    | arr xs => exact absurd rfl (hv xs)
    | other t => rfl
  · intro pre v post
    induction pre with
    | nil =>
      intro _ hv
      cases v with
      | str s => exact absurd rfl (hv s)
      | arr xs => rfl
      | other t => rfl
    | cons x rest ih =>
      intro hpre hv
      obtain ⟨s, hx, hcidr⟩ := hpre x (List.mem_cons_self x rest)
      subst hx
      show validateRoutesList (JSValue.str s :: (rest ++ v :: post)) = _
      rw [validateRoutesList, if_pos hcidr]
      exact ih (fun y hy => hpre y (List.mem_cons_of_mem _ hy)) hv
  · intro ss
    induction ss with
    | nil =>
      constructor
      · constructor
        · intro _ s hs
          exact absurd hs (List.not_mem_nil s)
        · intro _
          rfl
      · rintro ⟨s, hs, _⟩
        exact absurd hs (List.not_mem_nil s)
    | cons s rest ih =>
      constructor
      · constructor
        · intro h s0 hs0
          by_cases hc : isValidCIDR s
          · rcases List.mem_cons.mp hs0 with rfl | hmem
            · exact hc
            · have hrest : validateRoutes (JSValue.arr (rest.map JSValue.str)) =
                  .ok () := by
                simpa [validateRoutes, validateRoutesList, hc] using h
              exact (ih.1.mp hrest) s0 hmem
          · exfalso
            simp [validateRoutes, validateRoutesList, hc] at h
        · intro hall
          have hc : isValidCIDR s = true := hall s (List.mem_cons_self s rest)
          have hrest := ih.1.mpr (fun x hx => hall x (List.mem_cons_of_mem _ hx))
          simpa [validateRoutes, validateRoutesList, hc] using hrest
      · rintro ⟨s0, hs0, hbad⟩
        by_cases hc : isValidCIDR s
        · rcases List.mem_cons.mp hs0 with rfl | hmem
          · rw [hc] at hbad
            cases hbad
          · obtain ⟨s1, hs1, hb1, heq⟩ := ih.2 ⟨s0, hmem, hbad⟩
            exact ⟨s1, List.mem_cons_of_mem _ hs1, hb1,
              by simpa [validateRoutes, validateRoutesList, hc] using heq⟩
        · refine ⟨s, List.mem_cons_self s rest, by simpa using hc, ?_⟩
          simp [validateRoutes, validateRoutesList, hc]

/-- C7 (witness): the spec's end-to-end route list passes. -/
theorem validateRoutes_spec_witness :
    validateRoutes (JSValue.arr (["10.0.0.0/8", "2001:db8::/32"].map JSValue.str)) =
      .ok () :=
  (validateRoutes_spec.2.2 ["10.0.0.0/8", "2001:db8::/32"]).1.mpr (by decide)

/-! ## Supporting lemmas for the CIDR claim -/

lemma not_mem_of_all {p : Char → Bool} :
    ∀ {cs : List Char}, cs.all p = true → ∀ {c : Char}, p c = false → c ∉ cs := by
  intro cs
  induction cs with
  | nil =>
    intro _ c _
    exact List.not_mem_nil c
  | cons a l ih =>
    intro h c hc hmem
    rw [List.all_cons, Bool.and_eq_true] at h
    rcases List.mem_cons.mp hmem with rfl | hm
    · rw [h.1] at hc
      cases hc
    · exact ih h.2 hc hm

lemma splitLast_eq_none {sep : Char} :
    ∀ {cs : List Char}, sep ∉ cs → splitLast sep cs = none := by
  intro cs
  induction cs with
  | nil =>
    intro _
    rfl
  | cons a l ih =>
    intro h
    have ha : ¬(a = sep) := fun he => h (he ▸ List.mem_cons_self a l)
    have hl : sep ∉ l := fun hm => h (List.mem_cons_of_mem a hm)
    simp [splitLast, ih hl, ha]

lemma splitLast_append {sep : Char} {r : List Char} (hr : sep ∉ r) :
    ∀ (l : List Char), splitLast sep (l ++ sep :: r) = some (l, r) := by
  intro l
  induction l with
  | nil => simp [splitLast, splitLast_eq_none hr]
  | cons a l ih => simp [splitLast, ih]

lemma splitLast_sound {sep : Char} :
    ∀ {cs l r : List Char}, splitLast sep cs = some (l, r) → cs = l ++ sep :: r := by
  intro cs
  induction cs with
  | nil =>
    intro l r h
    cases h
  | cons a cs ih =>
    intro l r h
    cases hsl : splitLast sep cs with
    | some pr =>
      obtain ⟨l0, r0⟩ := pr
      simp only [splitLast, hsl] at h
      obtain ⟨rfl, rfl⟩ := Prod.mk.injEq .. ▸ Option.some.inj h
      simpa using ih hsl
    | none =>
      simp only [splitLast, hsl] at h
      by_cases ha : a = sep
      · rw [if_pos ha] at h
        obtain ⟨rfl, rfl⟩ := Prod.mk.injEq .. ▸ Option.some.inj h
        rw [ha]
        rfl
      · rw [if_neg ha] at h
        cases h

lemma splitCIDR_append {ip pfx : List Char} (h1 : '/' ∉ pfx) (h2 : ip ≠ [])
    (h3 : pfx ≠ []) (h4 : pfx.all Char.isDigit = true) :
    splitCIDR (ip ++ '/' :: pfx) = some (ip, pfx) := by
  have hsl := splitLast_append h1 ip
  have hie : ip.isEmpty = false := by
    cases h : ip with
    | nil => exact absurd h h2
    | cons a l => rfl
  have hpe : pfx.isEmpty = false := by
    cases h : pfx with
    | nil => exact absurd h h3
    | cons a l => rfl
  simp [splitCIDR, hsl, hie, hpe, h4]

lemma splitCIDR_sound {cs ip pfx : List Char} (h : splitCIDR cs = some (ip, pfx)) :
    cs = ip ++ '/' :: pfx ∧ pfx ≠ [] ∧ pfx.all Char.isDigit = true := by
  cases hsl : splitLast '/' cs with
  | none => simp [splitCIDR, hsl] at h
  | some pr =>
    obtain ⟨l, r⟩ := pr
    simp only [splitCIDR, hsl] at h
    by_cases hcond : (!l.isEmpty && !r.isEmpty && r.all Char.isDigit) = true
    · rw [if_pos hcond] at h
      obtain ⟨rfl, rfl⟩ := Prod.mk.injEq .. ▸ Option.some.inj h
      rw [Bool.and_eq_true, Bool.and_eq_true] at hcond
      refine ⟨splitLast_sound hsl, ?_, hcond.2⟩
      intro hr
      subst hr
      simp at hcond
    · rw [if_neg hcond] at h
      cases h

lemma v4_chars {cs : List Char} (h : isValidIPv4L cs = true) :
    cs.all isV4Char = true := by
  simp only [isValidIPv4L, Bool.and_eq_true] at h
  exact h.1

lemma v6_chars {cs : List Char} (h : isValidIPv6L cs = true) :
    cs.all isV6Char = true := by
  simp only [isValidIPv6L, Bool.and_eq_true] at h
  exact h.1.1

lemma v6_colon {cs : List Char} (h : isValidIPv6L cs = true) : ':' ∈ cs := by
  simp only [isValidIPv6L, Bool.and_eq_true] at h
  simpa using h.1.2

lemma v4_ne_nil {cs : List Char} (h : isValidIPv4L cs = true) : cs ≠ [] := by
  intro hn
  subst hn
  exact absurd h (by decide)

lemma v6_ne_nil {cs : List Char} (h : isValidIPv6L cs = true) : cs ≠ [] := by
  intro hn
  subst hn
  exact absurd h (by decide)

lemma v4_not_v6 {cs : List Char} (h : isValidIPv4L cs = true) :
    isValidIPv6L cs = false := by
  have hall := v4_chars h
  have hnc : ':' ∉ cs := not_mem_of_all hall (by decide)
  cases h6 : isValidIPv6L cs with
  | false => rfl
  | true => exact absurd (v6_colon h6) hnc

/-! ## The CIDR claim -/

/-- C6: for every pair written as the string ip/p with p a digit run:
when the IP part is a valid IPv4 literal, `isValidCIDR` returns true exactly
when the mask is at most 32; when it is a valid IPv6 literal, true exactly
when the mask is at most 128; and whenever `isValidCIDR` accepts a string,
that string is of the form ip/digits with the IP part a valid literal. -/
theorem isValidCIDR_ranges :
    (∀ (ip : String) (pfx : List Char), pfx ≠ [] → pfx.all Char.isDigit = true →
      isValidIPv4L ip.data = true →
      isValidCIDR (ip ++ String.mk ('/' :: pfx)) = decide (natOfDigits pfx ≤ 32)) ∧
    (∀ (ip : String) (pfx : List Char), pfx ≠ [] → pfx.all Char.isDigit = true →
      isValidIPv6L ip.data = true →
      isValidCIDR (ip ++ String.mk ('/' :: pfx)) = decide (natOfDigits pfx ≤ 128)) ∧
    (∀ s : String, isValidCIDR s = true →
      ∃ ip pfx, s.data = ip ++ '/' :: pfx ∧ pfx ≠ [] ∧
        pfx.all Char.isDigit = true ∧
        (isValidIPv4L ip = true ∨ isValidIPv6L ip = true)) := by
  refine ⟨?_, ?_, ?_⟩
  · intro ip pfx hne hdig hv4
    have hnos : '/' ∉ pfx := not_mem_of_all hdig (by decide)
    have hipne : ip.data ≠ [] := v4_ne_nil hv4
    have hdata : (ip ++ String.mk ('/' :: pfx)).data = ip.data ++ '/' :: pfx := rfl
    have hsplit := splitCIDR_append hnos hipne hne hdig
    simp only [isValidCIDR, hdata, hsplit]
    rw [v4_not_v6 hv4, hv4]
    simp
  · intro ip pfx hne hdig hv6
    have hnos : '/' ∉ pfx := not_mem_of_all hdig (by decide)
    have hipne : ip.data ≠ [] := v6_ne_nil hv6
    have hdata : (ip ++ String.mk ('/' :: pfx)).data = ip.data ++ '/' :: pfx := rfl
    have hsplit := splitCIDR_append hnos hipne hne hdig
    simp only [isValidCIDR, hdata, hsplit]
    have h4 : isValidIPv4L ip.data = false := by
      cases h : isValidIPv4L ip.data with
      | false => rfl
      | true =>
        rw [v4_not_v6 h] at hv6
        cases hv6
    rw [hv6, h4]
    simp
  · intro s hs
    cases hsp : splitCIDR s.data with
    | none => simp [isValidCIDR, hsp] at hs
    | some pr =>
      obtain ⟨ip, pfx⟩ := pr
      obtain ⟨heq, hne, hdig⟩ := splitCIDR_sound hsp
      simp only [isValidCIDR, hsp, Bool.or_eq_true, Bool.and_eq_true] at hs
      rcases hs with ⟨h6, _⟩ | ⟨h4, _⟩
      · exact ⟨ip, pfx, heq, hne, hdig, Or.inr h6⟩
      · exact ⟨ip, pfx, heq, hne, hdig, Or.inl h4⟩

/-- C6 (witness): the IPv4 route 10.0.0.0 with mask 8 evaluates through the
range theorem. -/
theorem isValidCIDR_ranges_witness :
    isValidCIDR ("10.0.0.0" ++ String.mk ('/' :: ['8'])) =
      decide (natOfDigits ['8'] ≤ 32) :=
  isValidCIDR_ranges.1 "10.0.0.0" ['8'] (by decide) (by decide) (by decide)

end TailscaleMcp
